import Mathlib

/-!
Verification of the gp_parser Guitar Pro 5 decoder (gp_parser.cpp /
gp_parser.h): a shallow embedding of the decoding routines the claims are
about, with proofs settling each claim.

Modelling conventions:

* The byte buffer `fileBuffer` is a `List Nat`; each entry models one
  `char` of the C++ `std::vector<char>` and is reduced mod 256 at every
  read, matching the 8-bit storage.
* A read that would index the vector out of bounds is undefined behaviour
  in the C++ source (unchecked `operator[]`, or `std::copy` past `end()`);
  the embedding returns `none` there.  `none` marks that undefined
  behaviour - the source contains no bounds check and raises no error of
  any kind for truncation.
* `skip` is total, exactly as in the source: it adds to the position
  without any check.
* C++ signed integer arithmetic is modelled on `Int`; `Int.tdiv` is C++
  `/` (truncation toward zero).  Where `int32_t` overflow matters
  (`numOfDigits`) the embedding returns `none` at the overflowing
  operation, since signed overflow is undefined behaviour.
* The `double` arithmetic of `getTime` / `readDuration` is modelled on
  `ℚ`.  On the paths the claims are about every intermediate C++ value is
  a small dyadic rational which `double` represents exactly, so the model
  agrees with the compiled code there.
-/

namespace GpParser

/-- Cursor state of the `Parser` class: the raw file bytes and the mutable
read position (fields `fileBuffer` / `bufferPosition` of `gp_parser.h`). -/
structure ParserState where
  fileBuffer : List Nat
  bufferPosition : Nat
deriving DecidableEq, Repr

/-- `Parser::readUnsignedByte` (gp_parser.cpp:200): returns
`static_cast<uint8_t>(fileBuffer[bufferPosition++])`.  `none` models the
unchecked out-of-bounds vector access (undefined behaviour), which the
source performs silently. -/
def readUnsignedByte (s : ParserState) : Option (Nat × ParserState) :=
  match s.fileBuffer.get? s.bufferPosition with
  | some b => some (b % 256, ⟨s.fileBuffer, s.bufferPosition + 1⟩)
  | none => none

/-- Value of `static_cast<int8_t>` applied to a raw byte. -/
def toSigned8 (b : Nat) : Int :=
  if b % 256 < 128 then ((b % 256 : Nat) : Int) else ((b % 256 : Nat) : Int) - 256

/-- `Parser::readByte` (gp_parser.cpp:207): signed byte read. -/
def readByte (s : ParserState) : Option (Int × ParserState) :=
  match s.fileBuffer.get? s.bufferPosition with
  | some b => some (toSigned8 b, ⟨s.fileBuffer, s.bufferPosition + 1⟩)
  | none => none

/-- Value of a 32-bit two's-complement word. -/
def toSigned32 (u : Nat) : Int :=
  if u % 2 ^ 32 < 2 ^ 31 then ((u % 2 ^ 32 : Nat) : Int)
  else ((u % 2 ^ 32 : Nat) : Int) - 2 ^ 32

/-- `Parser::readInt` (gp_parser.cpp:214): little-endian signed 32-bit read
of four bytes, advancing the position by 4. -/
def readInt (s : ParserState) : Option (Int × ParserState) :=
  match s.fileBuffer.get? s.bufferPosition, s.fileBuffer.get? (s.bufferPosition + 1),
      s.fileBuffer.get? (s.bufferPosition + 2), s.fileBuffer.get? (s.bufferPosition + 3) with
  | some b0, some b1, some b2, some b3 =>
      some (toSigned32 (b0 % 256 + 256 * (b1 % 256) + 65536 * (b2 % 256) +
        16777216 * (b3 % 256)), ⟨s.fileBuffer, s.bufferPosition + 4⟩)
  | _, _, _, _ => none

/-- `Parser::skip` (gp_parser.cpp:278): `bufferPosition += n`.  The source
performs no bounds check whatsoever, so the model is a total function. -/
def skip (n : Nat) (s : ParserState) : ParserState :=
  ⟨s.fileBuffer, s.bufferPosition + n⟩

/-- C1: the spec says every cursor operation that would pass the end of the
buffer raises an explicit TruncatedInput failure.  The code does not:
`skip` past the end of an empty buffer succeeds silently and leaves the
position beyond the buffer, and a byte read past the end is an unchecked
out-of-bounds vector access (undefined behaviour, `none` in the model), not
a raised error.  This theorem evaluates the code at that failing input. -/
theorem skip_no_truncation_check :
    skip 5 ⟨[], 0⟩ = ⟨[], 5⟩ ∧
    (skip 5 ⟨[], 0⟩).fileBuffer.length < (skip 5 ⟨[], 0⟩).bufferPosition ∧
    readUnsignedByte ⟨[], 0⟩ = none := by
  refine ⟨rfl, by decide, rfl⟩

/-- `Parser::readString(size, len)` (gp_parser.cpp:237-255): reads
`bytesToRead = size > 0 ? size : len` bytes from the buffer (unchecked
`std::copy`, so running past the end is undefined behaviour, `none` here)
and keeps `len` of them when `len <= bytesToRead`, else `size`. -/
def readString (size len : Nat) (s : ParserState) : Option (List Nat × ParserState) :=
  let bytesToRead := if 0 < size then size else len
  if s.bufferPosition + bytesToRead ≤ s.fileBuffer.length then
    let bytes := ((s.fileBuffer.drop s.bufferPosition).take bytesToRead).map (· % 256)
    some (bytes.take (if len ≤ bytesToRead then len else size),
      ⟨s.fileBuffer, s.bufferPosition + bytesToRead⟩)
  else none

/-- `Parser::readStringByte` (gp_parser.cpp:259): one length byte, then
`readString(size, len)`. -/
def readStringByte (size : Nat) (s : ParserState) : Option (List Nat × ParserState) :=
  match readUnsignedByte s with
  | some (len, s1) => readString size len s1
  | none => none

/-- `Parser::readStringByteSizeOfInteger` (gp_parser.cpp:267-270):
`readStringByte(readInt() - 1)`.  The `int32_t` result of `readInt() - 1`
is converted to the `size_t` parameter, so negative values wrap mod 2^64. -/
def readStringByteSizeOfInteger (s : ParserState) : Option (List Nat × ParserState) :=
  match readInt s with
  | some (v, s1) => readStringByte (((v - 1) % 2 ^ 64).toNat) s1
  | none => none

/-- Byte values of a literal ASCII string. -/
def strBytes (t : String) : List Nat := t.toList.map Char.toNat

/-- The two entries of the `VERSIONS` table in gp_parser.h. -/
def VERSIONS : List (List Nat) :=
  [strBytes "FICHIER GUITAR PRO v5.00", strBytes "FICHIER GUITAR PRO v5.10"]

/-- `Parser::readVersion` (gp_parser.cpp:284-287): `version = readStringByte(30)`,
consuming 1 length byte plus a 30-byte field. -/
def readVersion (s : ParserState) : Option (List Nat × ParserState) :=
  readStringByte 30 s

/-- `Parser::isSupportedVersion` (gp_parser.cpp:290-300): linear scan of
the 2-entry `VERSIONS` array, unrolled; returns the matching index
(`versionIndex`), none when no entry compares equal. -/
def isSupportedVersion (version : List Nat) : Option Nat :=
  if version = VERSIONS.getD 0 [] then some 0
  else if version = VERSIONS.getD 1 [] then some 1
  else none

/-- The version check at the top of the constructor (gp_parser.cpp:33-36):
`readVersion(); if (!isSupportedVersion(version)) throw ...`.  `none` means
the constructor aborts (with "Unsupported version" when 31 bytes were
available; a shorter buffer is an unchecked out-of-bounds read). -/
def versionGate (s : ParserState) : Option (Nat × ParserState) :=
  match readVersion s with
  | some (v, s1) =>
    match isSupportedVersion v with
    | some idx => some (idx, s1)
    | none => none
  | none => none

/-- Decoding of the 31-byte version field from a buffer with at least 31
bytes: one length byte, then 30 field bytes of which the first
`min (length byte) 30` are kept; the position ends at 31. -/
theorem readVersion_cons (b0 : Nat) (tl : List Nat) (h : 30 ≤ tl.length) :
    readVersion ⟨b0 :: tl, 0⟩ =
      some (((tl.map (· % 256)).take 30).take (if b0 % 256 ≤ 30 then b0 % 256 else 30),
        ⟨b0 :: tl, 31⟩) := by
  simp only [readVersion, readStringByte, readUnsignedByte, readString, List.get?_cons_zero,
    List.length_cons, List.drop_succ_cons, List.drop_zero]
  norm_num
  intro hc
  exact absurd hc (by omega)

/-- The `isSupportedVersion` scan succeeds exactly on the two literal
version strings of the `VERSIONS` table. -/
theorem isSupportedVersion_isSome (v : List Nat) :
    (isSupportedVersion v).isSome ↔
      v = strBytes "FICHIER GUITAR PRO v5.00" ∨ v = strBytes "FICHIER GUITAR PRO v5.10" := by
  have e0 : VERSIONS.getD 0 [] = strBytes "FICHIER GUITAR PRO v5.00" := rfl
  have e1 : VERSIONS.getD 1 [] = strBytes "FICHIER GUITAR PRO v5.10" := rfl
  rw [isSupportedVersion, e0, e1]
  split_ifs with h0 h1
  · simp [h0]
  · simp [h0, h1]
  · simp [h0, h1]

/-- C3: construction passes the version gate exactly when the
length-prefixed string decoded from the first 31 bytes is one of the two
literals; the decision is taken at position 31 and does not depend on any
byte beyond the 31-byte version field. -/
theorem versionGate_exact (buf : List Nat) (h : 31 ≤ buf.length) :
    ∃ v : List Nat, readVersion ⟨buf, 0⟩ = some (v, ⟨buf, 31⟩) ∧
      ((versionGate ⟨buf, 0⟩).isSome ↔
        v = strBytes "FICHIER GUITAR PRO v5.00" ∨ v = strBytes "FICHIER GUITAR PRO v5.10") ∧
      (∀ idx s1, versionGate ⟨buf, 0⟩ = some (idx, s1) → s1.bufferPosition = 31) ∧
      (∀ extra : List Nat,
        (versionGate ⟨buf ++ extra, 0⟩).isSome = (versionGate ⟨buf, 0⟩).isSome) := by
  cases buf with
  | nil => simp at h
  | cons b0 tl =>
    have htl : 30 ≤ tl.length := by simp at h; omega
    have hv := readVersion_cons b0 tl htl
    refine ⟨_, hv, ?_, ?_, ?_⟩
    · rw [← isSupportedVersion_isSome]
      simp only [versionGate, hv]
      cases hs : isSupportedVersion
          (((tl.map (· % 256)).take 30).take (if b0 % 256 ≤ 30 then b0 % 256 else 30)) <;>
        simp [hs]
    · intro idx s1 hgate
      simp only [versionGate, hv] at hgate
      cases hs : isSupportedVersion
          (((tl.map (· % 256)).take 30).take (if b0 % 256 ≤ 30 then b0 % 256 else 30)) <;>
        simp [hs] at hgate
      obtain ⟨-, h2⟩ := hgate
      subst h2
      rfl
    · intro extra
      have htl2 : 30 ≤ (tl ++ extra).length := by simp; omega
      have hv2 := readVersion_cons b0 (tl ++ extra) htl2
      have htake : ((tl ++ extra).map (· % 256)).take 30 = (tl.map (· % 256)).take 30 := by
        rw [List.map_append, List.take_append_eq_append_take]
        have h0 : 30 - (tl.map (· % 256)).length = 0 := by simp; omega
        rw [h0, List.take_zero, List.append_nil]
      rw [htake] at hv2
      show (versionGate ⟨b0 :: (tl ++ extra), 0⟩).isSome = _
      simp only [versionGate, hv, hv2]
      cases hs : isSupportedVersion
          (((tl.map (· % 256)).take 30).take (if b0 % 256 ≤ 30 then b0 % 256 else 30)) <;>
        simp [hs]

/-- A concrete 31-byte buffer: length byte 24, the ASCII bytes of
"FICHIER GUITAR PRO v5.00", and 6 bytes of padding. -/
def versionBuf : List Nat :=
  [24, 70, 73, 67, 72, 73, 69, 82, 32, 71, 85, 73, 84, 65, 82, 32, 80, 82, 79, 32,
   118, 53, 46, 48, 48, 0, 0, 0, 0, 0, 0]

/-- Witness for `versionGate_exact`, applying it at the concrete buffer
`versionBuf`. -/
theorem versionGate_exact_witness :
    ∃ v : List Nat, readVersion ⟨versionBuf, 0⟩ = some (v, ⟨versionBuf, 31⟩) ∧
      ((versionGate ⟨versionBuf, 0⟩).isSome ↔
        v = strBytes "FICHIER GUITAR PRO v5.00" ∨ v = strBytes "FICHIER GUITAR PRO v5.10") ∧
      (∀ idx s1, versionGate ⟨versionBuf, 0⟩ = some (idx, s1) → s1.bufferPosition = 31) ∧
      (∀ extra : List Nat,
        (versionGate ⟨versionBuf ++ extra, 0⟩).isSome = (versionGate ⟨versionBuf, 0⟩).isSome) :=
  versionGate_exact versionBuf (by decide)

/-- The fields of the `Note` struct (gp_parser.h) the claims depend on. -/
structure Note where
  string : Int
  tiedNote : Bool
  value : Int
deriving DecidableEq, Repr

/-- The fields of the `Voice` struct the claims depend on. -/
structure Voice where
  empty : Bool
  notes : List Note
deriving DecidableEq, Repr

/-- The fields of the `Beat` struct the claims depend on. -/
structure Beat where
  start : Int
  voices : List Voice
deriving DecidableEq, Repr

/-- The fields of the `Measure` struct the claims depend on. -/
structure Measure where
  beats : List Beat
deriving DecidableEq, Repr

/-- The fields of the `Track` struct the claims depend on. -/
structure Track where
  channelId : Int
  number : Int
  measures : List Measure
deriving DecidableEq, Repr

/-- Inner scan of `Parser::getTiedNoteValue` over one beat: voices in
order; inside a voice with `empty == false`, notes in order; the first
note on `string` yields its value (gp_parser.cpp:748-757). -/
def tiedInBeat (string : Int) (beat : Beat) : Option Int :=
  beat.voices.findSome? fun voice =>
    if voice.empty then none
    else (voice.notes.find? fun note => note.string == string).map fun note => note.value

/-- Measure-index loop of `Parser::getTiedNoteValue` (gp_parser.cpp:744).
The loop variable `m` has the unsigned type of `size()`, so `m >= 0` is
always true: after the iteration at index 0 finds nothing, `--m` wraps to
`SIZE_MAX` and `track.measures[m]` is an out-of-bounds access - undefined
behaviour, modelled as `none`.  Within a measure, beats are scanned in
reverse (the beat counter is a signed `int64_t` and terminates normally). -/
def scanMeasures (string : Int) (measures : List Measure) : Nat → Option Int
  | 0 =>
    match measures.get? 0 with
    | none => none
    | some measure =>
      match measure.beats.reverse.findSome? (tiedInBeat string) with
      | some v => some v
      | none => none
  | m + 1 =>
    match measures.get? (m + 1) with
    | none => none
    | some measure =>
      match measure.beats.reverse.findSome? (tiedInBeat string) with
      | some v => some v
      | none => scanMeasures string measures m

/-- `Parser::getTiedNoteValue` (gp_parser.cpp:740-763): when at least one
measure exists, scan from the last measure down; otherwise return 0. -/
def getTiedNoteValue (string : Int) (track : Track) : Option Int :=
  if 0 < track.measures.length then
    scanMeasures string track.measures (track.measures.length - 1)
  else some 0

/-- C2: the happy path of tied-note resolution finds the most recent note
on the requested string (here fret 7 on string 3), and a track with no
measures yields 0; but when the track has at least one decoded measure and
no note on the string exists anywhere, the claimed fallback of 0 is never
reached - the unsigned measure index wraps below zero and the code indexes
`track.measures` out of bounds (undefined behaviour, `none` here), for an
empty measure as well as for measures whose notes are on other strings. -/
theorem getTiedNoteValue_unsigned_wrap :
    getTiedNoteValue 3 ⟨0, 1, [⟨[⟨0, [⟨false, [⟨3, false, 7⟩]⟩]⟩]⟩]⟩ = some 7 ∧
    getTiedNoteValue 3 ⟨0, 1, []⟩ = some 0 ∧
    getTiedNoteValue 3 ⟨0, 1, [⟨[]⟩]⟩ = none ∧
    getTiedNoteValue 3 ⟨0, 1, [⟨[⟨0, [⟨false, [⟨2, false, 5⟩]⟩]⟩]⟩]⟩ = none := by
  refine ⟨rfl, rfl, rfl, rfl⟩

/-- The per-beat emptiness test of `Parser::readMeasure` (gp_parser.cpp:
426-435): a beat is empty when every one of its voices holds zero notes. -/
def beatIsEmpty (beat : Beat) : Bool :=
  beat.voices.all fun voice => voice.notes.length == 0

/-- The empty-beat removal loops at the end of `Parser::readMeasure`
(gp_parser.cpp:425-443).  The first loop records pointers to the empty
beats in index order.  `std::vector::erase` shifts later elements left
inside the same allocation, so a stored pointer to original slot `i` still
compares equal to `&measure.beats[i]` - the address of slot `i` - as long
as `i` is inside the shrunken vector, and compares equal to nothing
otherwise.  The second loop therefore erases at the stored index when it
is still in range, else erases nothing. -/
def removeEmptyBeats (beats : List Beat) : List Beat :=
  let emptyBeats := (List.range beats.length).filter fun i =>
    match beats.get? i with
    | some beat => beatIsEmpty beat
    | none => false
  emptyBeats.foldl (fun bs i => if i < bs.length then bs.eraseIdx i else bs) beats

/-- C5: a measure whose sole beat is empty does end with an empty beat
list, but with two empty beats following a non-empty one the stale-index
erase removes only the first: the second empty beat survives the pruning,
so the decoded measure can retain a beat whose two voices are both
empty. -/
theorem removeEmptyBeats_leaves_empty_beat :
    removeEmptyBeats [⟨0, [⟨false, [⟨1, false, 0⟩]⟩, ⟨false, []⟩]⟩,
        ⟨1, [⟨false, []⟩, ⟨false, []⟩]⟩,
        ⟨2, [⟨false, []⟩, ⟨false, []⟩]⟩] =
      [⟨0, [⟨false, [⟨1, false, 0⟩]⟩, ⟨false, []⟩]⟩, ⟨2, [⟨false, []⟩, ⟨false, []⟩]⟩] ∧
    beatIsEmpty ⟨2, [⟨false, []⟩, ⟨false, []⟩]⟩ = true ∧
    removeEmptyBeats [⟨1, [⟨false, []⟩, ⟨false, []⟩]⟩] = [] := by
  refine ⟨by decide, by decide, by decide⟩

/-- `QUARTER_TIME` from gp_parser.h (960 ticks per quarter note). -/
def QUARTER_TIME : ℚ := 960

/-- The `Division` struct: tuplet enters/times pair. -/
structure Division where
  enters : Int
  times : Int
deriving DecidableEq, Repr

/-- The fields of the `Duration` struct the claims depend on.  `value` is
the C++ `double`, modelled on `ℚ`. -/
structure Duration where
  value : ℚ
  dotted : Bool
  doubleDotted : Bool
  division : Division
deriving DecidableEq, Repr

/-- `Parser::getTime` (gp_parser.cpp:593-602): `QUARTER_TIME * 4.0 /
value`, dotted scaling of +1/2 (or the double-dotted +3/4 branch), then
`* division.times / division.enters`.  On the paths the claims are about
every `double` value is a small dyadic rational, so `ℚ` is exact. -/
def getTime (duration : Duration) : ℚ :=
  let time := QUARTER_TIME * 4 / duration.value
  let time :=
    if duration.dotted then time + time / 2
    else if duration.doubleDotted then time + time / 4 * 3
    else time
  time * (duration.division.times : ℚ) / (duration.division.enters : ℚ)

/-- The `switch (divisionType)` of `Parser::readDuration`
(gp_parser.cpp:610-649): the nine recognized tuplet codes overwrite the
division; every other code leaves it untouched. -/
def applyDivisionCode (divisionType : Int) (division : Division) : Division :=
  if divisionType = 3 then ⟨3, 2⟩
  else if divisionType = 5 then ⟨5, 5⟩
  else if divisionType = 6 then ⟨6, 4⟩
  else if divisionType = 7 then ⟨7, 4⟩
  else if divisionType = 9 then ⟨9, 8⟩
  else if divisionType = 10 then ⟨10, 8⟩
  else if divisionType = 11 then ⟨11, 8⟩
  else if divisionType = 12 then ⟨12, 8⟩
  else if divisionType = 13 then ⟨13, 8⟩
  else division

/-- The division finally recorded for tuplet code `c`: the switch applied
to the value-initialized `⟨0, 0⟩` division, then the `enters == 0` default
of gp_parser.cpp:651-654 turning it into `⟨1, 1⟩`. -/
def tupletDivision (c : Int) : Division :=
  let division := applyDivisionCode c ⟨0, 0⟩
  if division.enters = 0 then ⟨1, 1⟩ else division

/-- `Parser::readDuration` (gp_parser.cpp:605-657) up to the final
`getTime` call: reads the signed duration byte, sets
`value = pow(2, byte + 4) / 4` and the dotted flag from bit 0x01 of the
beat flags, reads a 4-byte tuplet code when bit 0x20 is set, and applies
the `enters == 0` default.  `doubleDotted` is never assigned and keeps its
value-initialized `false`. -/
def readDurationRecord (flags : Nat) (s : ParserState) : Option (Duration × ParserState) :=
  match readByte s with
  | none => none
  | some (b, s1) =>
    let value : ℚ := 2 ^ (b + 4) / 4
    let dotted : Bool := flags &&& 0x01 != 0
    let afterTuplet : Option (Division × ParserState) :=
      if flags &&& 0x20 ≠ 0 then
        match readInt s1 with
        | none => none
        | some (divisionType, s2) => some (applyDivisionCode divisionType ⟨0, 0⟩, s2)
      else some (⟨0, 0⟩, s1)
    match afterTuplet with
    | none => none
    | some (division, s2) =>
      let division := if division.enters = 0 then ⟨1, 1⟩ else division
      some (⟨value, dotted, false, division⟩, s2)

/-- `Parser::readDuration` returns `getTime` of the decoded record. -/
def readDuration (flags : Nat) (s : ParserState) : Option (ℚ × ParserState) :=
  match readDurationRecord flags s with
  | none => none
  | some (d, s2) => some (getTime d, s2)

/-- C6: with no tuplet flag set the decoded playback time is
`960 * 4 / (2 ^ (b + 4) / 4)` for duration byte `b`; the dotted flag
(bit 0x01) multiplies that by exactly 3/2; and byte value 0 with no flags
yields exactly 960 ticks. -/
theorem readDuration_no_tuplet_formula (b : Int) (s s1 : ParserState)
    (hb : readByte s = some (b, s1)) :
    (∀ flags : Nat, flags &&& 0x20 = 0 → flags &&& 0x01 = 0 →
      readDuration flags s = some (QUARTER_TIME * 4 / (2 ^ (b + 4) / 4), s1)) ∧
    (∀ flags : Nat, flags &&& 0x20 = 0 → flags &&& 0x01 ≠ 0 →
      readDuration flags s =
        some (QUARTER_TIME * 4 / (2 ^ (b + 4) / 4) * (3 / 2), s1)) ∧
    (b = 0 → readDuration 0 s = some (960, s1)) := by
  have hval : ((2 : ℚ) ^ (b + 4) / 4) ≠ 0 := by
    have h2 : ((2 : ℚ) ^ (b + 4)) ≠ 0 := zpow_ne_zero _ (by norm_num)
    positivity
  have base : ∀ flags : Nat, flags &&& 0x20 = 0 →
      readDurationRecord flags s =
        some (⟨2 ^ (b + 4) / 4, flags &&& 0x01 != 0, false, ⟨1, 1⟩⟩, s1) := by
    intro flags h20
    simp only [readDurationRecord, hb, h20, ne_eq, not_true_eq_false, if_neg, not_false_eq_true,
      if_true]
  refine ⟨?_, ?_, ?_⟩
  · intro flags h20 h01
    simp only [readDuration, base flags h20, h01, getTime]
    norm_num
  · intro flags h20 h01
    simp only [readDuration, base flags h20, getTime]
    have hd : (flags &&& 0x01 != 0) = true := by
      simpa using h01
    simp only [hd]
    norm_num
    ring
  · intro hb0
    subst hb0
    simp only [readDuration, base 0 rfl, getTime]
    norm_num [QUARTER_TIME]

/-- Witness for `readDuration_no_tuplet_formula` at duration byte 0 on a
one-byte buffer: the decoded time is exactly 960. -/
theorem readDuration_no_tuplet_formula_witness :
    readByte ⟨[0], 0⟩ = some (0, ⟨[0], 1⟩) ∧
    readDuration 0 ⟨[0], 0⟩ = some (960, ⟨[0], 1⟩) := by
  have hb : readByte ⟨[0], 0⟩ = some (0, ⟨[0], 1⟩) := by decide
  exact ⟨hb, (readDuration_no_tuplet_formula 0 ⟨[0], 0⟩ ⟨[0], 1⟩ hb).2.2 rfl⟩

/-- C7: when the tuplet flag (bit 0x20) is set, the 4-byte tuplet code is
mapped through the fixed table, and any code outside the table leaves the
division at the default 1/1 without being an error: the decode still
succeeds. -/
theorem readDuration_tuplet_table (flags : Nat) (b code : Int) (s s1 s2 : ParserState)
    (hflag : flags &&& 0x20 ≠ 0)
    (hb : readByte s = some (b, s1)) (hcode : readInt s1 = some (code, s2)) :
    (∃ d, readDurationRecord flags s = some (d, s2) ∧ d.division = tupletDivision code) ∧
    tupletDivision 3 = ⟨3, 2⟩ ∧ tupletDivision 5 = ⟨5, 5⟩ ∧ tupletDivision 6 = ⟨6, 4⟩ ∧
    tupletDivision 7 = ⟨7, 4⟩ ∧ tupletDivision 9 = ⟨9, 8⟩ ∧ tupletDivision 10 = ⟨10, 8⟩ ∧
    tupletDivision 11 = ⟨11, 8⟩ ∧ tupletDivision 12 = ⟨12, 8⟩ ∧ tupletDivision 13 = ⟨13, 8⟩ ∧
    ∀ c : Int, c ∉ ([3, 5, 6, 7, 9, 10, 11, 12, 13] : List Int) → tupletDivision c = ⟨1, 1⟩ := by
  refine ⟨?_, by decide, by decide, by decide, by decide, by decide, by decide, by decide,
    by decide, by decide, ?_⟩
  · have hrec : readDurationRecord flags s =
        some (⟨2 ^ (b + 4) / 4, flags &&& 0x01 != 0, false, tupletDivision code⟩, s2) := by
      simp only [readDurationRecord, hb, hcode]
      rw [if_pos hflag]
      simp only [tupletDivision]
    exact ⟨_, hrec, rfl⟩
  · intro c hc
    simp only [List.mem_cons, List.not_mem_nil, or_false, not_or] at hc
    obtain ⟨h3, h5, h6, h7, h9, h10, h11, h12, h13⟩ := hc
    simp [tupletDivision, applyDivisionCode, h3, h5, h6, h7, h9, h10, h11, h12, h13]

/-- Witness for `readDuration_tuplet_table`: tuplet flag set, duration
byte 0 and the unrecognized tuplet code 99 on a concrete 5-byte buffer. -/
theorem readDuration_tuplet_table_witness :
    (32 : Nat) &&& 0x20 ≠ 0 ∧
    readByte ⟨[0, 99, 0, 0, 0], 0⟩ = some (0, ⟨[0, 99, 0, 0, 0], 1⟩) ∧
    readInt ⟨[0, 99, 0, 0, 0], 1⟩ = some (99, ⟨[0, 99, 0, 0, 0], 5⟩) ∧
    ∃ d, readDurationRecord 32 ⟨[0, 99, 0, 0, 0], 0⟩ = some (d, ⟨[0, 99, 0, 0, 0], 5⟩) ∧
      d.division = tupletDivision 99 :=
  ⟨by decide, by decide, by decide,
    (readDuration_tuplet_table 32 0 99 ⟨[0, 99, 0, 0, 0], 0⟩ ⟨[0, 99, 0, 0, 0], 1⟩
      ⟨[0, 99, 0, 0, 0], 5⟩ (by decide) (by decide) (by decide)).1⟩

/-- C10: every `Duration` constructed by `readDuration` has
`doubleDotted = false` (the field is never assigned after value
initialization), so `getTime` on such a record never takes the 1.75
double-dotted branch: its value is fully described by the dotted-only
formula. -/
theorem readDuration_never_doubleDotted (flags : Nat) (s s2 : ParserState) (d : Duration)
    (h : readDurationRecord flags s = some (d, s2)) :
    d.doubleDotted = false ∧
    getTime d = (QUARTER_TIME * 4 / d.value +
      if d.dotted then QUARTER_TIME * 4 / d.value / 2 else 0) *
      (d.division.times : ℚ) / (d.division.enters : ℚ) := by
  have hdd : d.doubleDotted = false := by
    simp only [readDurationRecord] at h
    repeat' split at h
    all_goals
      first
      | exact Option.noConfusion h
      | (injection h with h1
         injection h1 with h3 h4
         rw [← h3])
  refine ⟨hdd, ?_⟩
  simp only [getTime, hdd]
  cases hd : d.dotted
  · simp
  · simp

/-- Witness for `readDuration_never_doubleDotted` at beat flags 0 on a
one-byte buffer. -/
theorem readDuration_never_doubleDotted_witness :
    readDurationRecord 0 ⟨[0], 0⟩ =
      some (⟨4, false, false, ⟨1, 1⟩⟩, ⟨[0], 1⟩) ∧
    (⟨4, false, false, ⟨1, 1⟩⟩ : Duration).doubleDotted = false := by
  have hb : readByte ⟨[0], 0⟩ = some (0, ⟨[0], 1⟩) := by decide
  have h : readDurationRecord 0 ⟨[0], 0⟩ = some (⟨4, false, false, ⟨1, 1⟩⟩, ⟨[0], 1⟩) := by
    simp only [readDurationRecord, hb]
    norm_num
  exact ⟨h, (readDuration_never_doubleDotted 0 ⟨[0], 0⟩ ⟨[0], 1⟩ _ h).1⟩

/-- C8 (amended): when the 4-byte length field decodes to N+1 with N >= 1,
`readStringByteSizeOfInteger` advances the cursor by exactly N+5 bytes in
total: the 4-byte length field, the 1-byte inner length, and N string
bytes - one more than the N+4 the spec states. -/
theorem readStringByteSizeOfInteger_advances (buf : List Nat) (pos N : Nat)
    (hN : 1 ≤ N) (hN31 : N + 1 < 2 ^ 31)
    (hv : readInt ⟨buf, pos⟩ = some ((N : Int) + 1, ⟨buf, pos + 4⟩))
    (hlen : pos + 5 + N ≤ buf.length) :
    ∃ str, readStringByteSizeOfInteger ⟨buf, pos⟩ = some (str, ⟨buf, pos + (N + 5)⟩) := by
  simp only [readStringByteSizeOfInteger, hv]
  have hsz : ((((N : Int) + 1) - 1) % 2 ^ 64).toNat = N := by
    have h1 : ((N : Int) + 1) - 1 = (N : Int) := by ring
    have h2 : (N : Int) % 2 ^ 64 = (N : Int) := by
      apply Int.emod_eq_of_lt (by positivity)
      have : (N : Int) < 2 ^ 31 := by exact_mod_cast (by omega : N < 2 ^ 31)
      calc (N : Int) < 2 ^ 31 := this
        _ ≤ 2 ^ 64 := by norm_num
    rw [h1, h2, Int.toNat_natCast]
  rw [hsz]
  simp only [readStringByte]
  obtain ⟨b, hb⟩ : ∃ b, buf.get? (pos + 4) = some b :=
    ⟨_, List.get?_eq_get (by omega)⟩
  simp only [readUnsignedByte, hb]
  simp only [readString]
  rw [if_pos (by omega : (0 : Nat) < N)]
  rw [if_pos (by omega : pos + 4 + 1 + N ≤ buf.length)]
  exact ⟨_, by rw [show pos + 4 + 1 + N = pos + (N + 5) by omega]⟩

/-- Witness for `readStringByteSizeOfInteger_advances` on a concrete
6-byte buffer whose length field decodes to 2 (so N = 1). -/
theorem readStringByteSizeOfInteger_advances_witness :
    readInt ⟨[2, 0, 0, 0, 9, 65], 0⟩ = some (2, ⟨[2, 0, 0, 0, 9, 65], 4⟩) ∧
    ∃ str, readStringByteSizeOfInteger ⟨[2, 0, 0, 0, 9, 65], 0⟩ =
      some (str, ⟨[2, 0, 0, 0, 9, 65], 6⟩) :=
  ⟨by decide,
    readStringByteSizeOfInteger_advances [2, 0, 0, 0, 9, 65] 0 1 (by decide) (by decide)
      (by decide) (by decide)⟩

/-- C8 counterexample: with a length field of 2 (N = 1, one string byte),
the cursor advances from 0 to 6 = N + 5, not to N + 4 = 5 as the spec
claims. -/
theorem readStringByteSizeOfInteger_not_n_plus_4 :
    readStringByteSizeOfInteger ⟨[2, 0, 0, 0, 7, 65], 0⟩ =
      some ([65], ⟨[2, 0, 0, 0, 7, 65], 6⟩) ∧ (6 : Nat) ≠ 1 + 4 := by
  refine ⟨by decide, by decide⟩

/-- One iteration step of the `numOfDigits` loop (gp_parser.cpp:939-946):
`for (order = 1; num / order != 0; order *= 10) ++digits;`.  C++ `/` on
`int` is truncation toward zero (`Int.tdiv`).  `order *= 10` overflows
`int32_t` once `order * 10` exceeds 2147483647, which is undefined
behaviour: the model returns `none` there.  The fuel only bounds the
recursion; it exceeds the at most 10 iterations any run can make before
either stopping or overflowing. -/
def numOfDigitsAux : Nat → Int → Int → Int → Option Int
  | 0, _, _, _ => none
  | fuel + 1, num, order, digits =>
    if num.tdiv order = 0 then some digits
    else if 2147483647 < order * 10 ∨ order * 10 < -2147483648 then none
    else numOfDigitsAux fuel num (order * 10) (digits + 1)

/-- `numOfDigits` from gp_parser.cpp:939-946: count of loop iterations
until `num / order` reaches 0, starting from `order = 1`. -/
def numOfDigits (num : Int) : Option Int :=
  numOfDigitsAux 33 num 1 0

/-- Character codes of the decimal representation that
`sprintf(buf, "%d", n)` writes. -/
def decChars (n : Int) : List Nat :=
  strBytes (toString n)

/-- The `ChannelParam` struct: auxiliary key/value parameter.  The value
string is modelled by its list of character codes. -/
structure ChannelParam where
  key : String
  value : List Nat
deriving DecidableEq, Repr

/-- The fields of the `Channel` struct the claims depend on. -/
structure Channel where
  id : Int
  name : String
  program : Int
  isPercussionChannel : Bool
  parameters : List ChannelParam
deriving DecidableEq, Repr

/-- `Parser::readChannel` (gp_parser.cpp:378-413), given the two already
decoded channel indices (`readInt() - 1` each).  When `gmChannel1` is in
bounds, the channel at that slot is copied by value; the copy - never the
slot itself - receives an id of `channels.size() + 1` when the slot's id
is 0, gets the two auxiliary parameters appended (each value string
resized to `numOfDigits` characters and filled by `sprintf`), and is
appended to the table; the track's channel id is taken from the copy.
`none` propagates the undefined behaviour of a `numOfDigits` overflow
(unreachable for in-bounds indices). -/
def readChannel (channels : List Channel) (track : Track) (gmChannel1 gmChannel2 : Int) :
    Option (List Channel × Track) :=
  if h : 0 ≤ gmChannel1 ∧ gmChannel1 < (channels.length : Int) then
    match numOfDigits gmChannel1,
        numOfDigits (if gmChannel1 ≠ 9 then gmChannel2 else gmChannel1) with
    | some n1, some n2 =>
      let gmChannel1Param : ChannelParam :=
        ⟨"gm channel 1", (decChars gmChannel1).take n1.toNat⟩
      let gmChannel2Param : ChannelParam :=
        ⟨"gm channel 2",
          (decChars (if gmChannel1 ≠ 9 then gmChannel2 else gmChannel1)).take n2.toNat⟩
      let channel := channels.get ⟨gmChannel1.toNat, by omega⟩
      if channel.id = 0 then
        let copied : Channel := { channel with
          id := (channels.length : Int) + 1,
          name := "TODO",
          parameters := channel.parameters ++ [gmChannel1Param, gmChannel2Param] }
        some (channels ++ [copied], { track with channelId := copied.id })
      else
        some (channels, { track with channelId := channel.id })
    | _, _ => none
  else some (channels, track)

/-- The 64 channels produced by `Parser::readChannels` (gp_parser.cpp:
338-363) as far as the claims depend on them: `readChannels` never assigns
`id`, so every slot keeps the value-initialized `id = 0`; slot 9 is the
percussion channel; no slot has auxiliary parameters.  Byte-dependent
fields (program and the six byte parameters) are irrelevant to the claims
and set to 0. -/
def initialChannels : List Channel :=
  (List.range 64).map fun i => ⟨0, "", 0, i == 9, []⟩

/-- Two successive track-channel resolutions on the same in-bounds slot 0,
recording table length and assigned track channel id after each. -/
def resolveTwice : Option ((Nat × Int) × (Nat × Int)) :=
  match readChannel initialChannels ⟨0, 1, []⟩ 0 0 with
  | some (cs1, t1) =>
    match readChannel cs1 ⟨0, 2, []⟩ 0 0 with
    | some (cs2, t2) => some ((cs1.length, t1.channelId), (cs2.length, t2.channelId))
    | none => none
  | none => none

/-- C4: resolving slot 0 for a first track on the 64-slot initial table
assigns id 65 = 64 + 1 and appends one channel - but the id is recorded
only on the appended copy, the slot keeps id 0, so a second track
resolving the same slot is assigned the fresh id 66 and appends another
channel instead of receiving the previously assigned id 65. -/
theorem readChannel_id_not_stable :
    resolveTwice = some ((65, 65), (66, 66)) ∧ (66 : Int) ≠ 65 := by
  refine ⟨by decide, by decide⟩

/-- C9 counterexample: `numOfDigits` does not return the digit count 10 for
the positive argument 1000000000; at `order = 10^9` the loop body executes
once more and `order *= 10` overflows `int32_t` (undefined behaviour,
`none` in the model). -/
theorem numOfDigits_overflow_at_billion :
    numOfDigits 1000000000 = none ∧ numOfDigits 1000000000 ≠ some 10 := by
  refine ⟨by decide, by decide⟩

/-- Loop invariant of `numOfDigitsAux`: starting at `order = 10 ^ k` with
`0 < num < 10 ^ 9` and `num < 10 ^ (k + e)`, the loop runs without
overflow and returns the accumulated digits plus `log10(num) + 1 - k`. -/
theorem numOfDigitsAux_digits (e : Nat) :
    ∀ (num : Int) (k fuel : Nat) (digits : Int),
      0 < num → num < 10 ^ 9 → num < 10 ^ (k + e) → e < fuel →
      numOfDigitsAux fuel num (10 ^ k) digits =
        some (digits + ((Nat.log 10 num.toNat + 1 - k : Nat) : Int)) := by
  have stop : ∀ (num : Int) (k f : Nat) (digits : Int), 0 < num → num < 10 ^ k →
      numOfDigitsAux (f + 1) num (10 ^ k) digits =
        some (digits + ((Nat.log 10 num.toNat + 1 - k : Nat) : Int)) := by
    intro num k f digits hpos hlt
    have hdiv : num.tdiv (10 ^ k) = 0 := Int.tdiv_eq_zero_of_lt (le_of_lt hpos) hlt
    have hcast : ((10 ^ k : Nat) : Int) = (10 : Int) ^ k := by push_cast; ring
    have htn : num.toNat < 10 ^ k := by
      rw [← hcast] at hlt
      omega
    have hlog : Nat.log 10 num.toNat < k :=
      Nat.log_lt_of_lt_pow (by omega) htn
    have hzero : (Nat.log 10 num.toNat + 1 - k : Nat) = 0 := by omega
    simp only [numOfDigitsAux, hdiv, if_true, hzero, Nat.cast_zero, add_zero]
  induction e with
  | zero =>
    intro num k fuel digits hpos h9 hlt hfuel
    obtain ⟨f, rfl⟩ : ∃ f, fuel = f + 1 := ⟨fuel - 1, by omega⟩
    exact stop num k f digits hpos (by simpa using hlt)
  | succ e ih =>
    intro num k fuel digits hpos h9 hlt hfuel
    obtain ⟨f, rfl⟩ : ∃ f, fuel = f + 1 := ⟨fuel - 1, by omega⟩
    by_cases hk : num < 10 ^ k
    · exact stop num k f digits hpos hk
    · push_neg at hk
      have hdiv : num.tdiv (10 ^ k) ≠ 0 := by
        have h1 : (1 : Int) ≤ num.tdiv (10 ^ k) := by
          rw [Int.tdiv_eq_ediv (le_of_lt hpos) (by positivity)]
          rw [Int.le_ediv_iff_mul_le (by positivity)]
          simpa using hk
        omega
      have hk9 : k < 9 := by
        by_contra hge
        push_neg at hge
        have h1 : (10 : Int) ^ 9 ≤ 10 ^ k := pow_le_pow_right₀ (by norm_num) hge
        have h2 : num < 10 ^ k := lt_of_lt_of_le h9 h1
        exact absurd hk (not_le.mpr h2)
      have hmul : (10 : Int) ^ k * 10 = 10 ^ (k + 1) := by ring
      have hover : ¬(2147483647 < (10 : Int) ^ (k + 1) ∨
          (10 : Int) ^ (k + 1) < -2147483648) := by
        have h1 : (10 : Int) ^ (k + 1) ≤ 10 ^ 9 := pow_le_pow_right₀ (by norm_num) (by omega)
        have h2 : (0 : Int) < 10 ^ (k + 1) := by positivity
        push_neg
        constructor
        · calc (10 : Int) ^ (k + 1) ≤ 10 ^ 9 := h1
            _ ≤ 2147483647 := by norm_num
        · calc (-2147483648 : Int) ≤ 0 := by norm_num
            _ ≤ 10 ^ (k + 1) := le_of_lt h2
      have hlt2 : num < 10 ^ ((k + 1) + e) := by
        have he : k + (e + 1) = (k + 1) + e := by omega
        rw [← he]
        exact hlt
      have hklog : k ≤ Nat.log 10 num.toNat := by
        rw [← Nat.pow_le_iff_le_log (by norm_num) (by omega)]
        have hcast : ((10 ^ k : Nat) : Int) = (10 : Int) ^ k := by push_cast; ring
        rw [← hcast] at hk
        omega
      have harith : digits + 1 + ((Nat.log 10 num.toNat + 1 - (k + 1) : Nat) : Int) =
          digits + ((Nat.log 10 num.toNat + 1 - k : Nat) : Int) := by omega
      simp only [numOfDigitsAux, if_neg hdiv, hmul]
      rw [if_neg hover]
      rw [ih num (k + 1) f (digits + 1) hpos h9 hlt2 (by omega)]
      exact congrArg some harith

/-- C9 (amended): `numOfDigits` returns the count of base-10 digits for
every positive argument below 10^9 (for larger arguments the `order`
accumulator overflows `int32_t`, which is undefined behaviour) and returns
0 for the argument 0; consequently, when a track's decoded 1-based gm
channel index is 1 (gmChannel1 = 0), the auxiliary "gm channel 1"
parameter attached during channel resolution is sized to zero characters
rather than holding the decimal string "0". -/
theorem numOfDigits_spec :
    numOfDigits 0 = some 0 ∧
    (∀ num : Int, 0 < num → num < 10 ^ 9 →
      numOfDigits num = some ((Nat.digits 10 num.toNat).length : Int)) ∧
    (∀ track : Track, ∃ cs t, readChannel initialChannels track 0 0 = some (cs, t) ∧
      ∃ c, cs.getLast? = some c ∧
        c.parameters = [⟨"gm channel 1", []⟩, ⟨"gm channel 2", []⟩] ∧
        ([] : List Nat) ≠ strBytes "0") := by
  refine ⟨by decide, ?_, ?_⟩
  · intro num hpos h9
    have := numOfDigitsAux_digits 9 num 0 33 0 hpos h9 (by simpa using h9) (by omega)
    rw [numOfDigits]
    rw [show (1 : Int) = 10 ^ (0 : Nat) by norm_num]
    rw [this]
    have hlen : (Nat.digits 10 num.toNat).length = Nat.log 10 num.toNat + 1 :=
      Nat.digits_len 10 num.toNat (by norm_num) (by omega)
    rw [hlen]
    norm_num
  · intro track
    have h : readChannel initialChannels track 0 0 =
        some (initialChannels ++
            [⟨65, "TODO", 0, false, [⟨"gm channel 1", []⟩, ⟨"gm channel 2", []⟩]⟩],
          { track with channelId := 65 }) := rfl
    exact ⟨_, _, h,
      ⟨⟨65, "TODO", 0, false, [⟨"gm channel 1", []⟩, ⟨"gm channel 2", []⟩]⟩,
        List.getLast?_concat _, rfl, by decide⟩⟩

/-- Witness for `numOfDigits_spec` at the positive argument 5: one decimal
digit. -/
theorem numOfDigits_spec_witness :
    (0 : Int) < 5 ∧ numOfDigits 5 = some 1 := by
  have h := numOfDigits_spec.2.1 5 (by norm_num) (by norm_num)
  have hd : Nat.digits 10 5 = [5] := by
    rw [Nat.digits_def' (by norm_num : (1 : ℕ) < 10) (by norm_num : 0 < 5)]
    norm_num
  refine ⟨by norm_num, ?_⟩
  rw [h, show Int.toNat 5 = 5 from rfl, hd]
  norm_num

end GpParser
